import Mathlib

/-!
Verification development for the OnMapPlotter repository
(`src/OnMapPlotter.py`).

The core under study is the plot/line state manager (`PlotManager`) and
the whitespace-delimited table reader (`readTxtTable`).  Python dicts are
embedded as insertion-ordered association lists with the usual dict
operations (lookup finds the entry, assignment overwrites in place or
appends, `pop` removes, `update` folds assignments); Python floats read
from the table are embedded as `Rat` (the reader only ever produces
decimal literals, which are exact); Python exceptions are embedded as
`Option` results.
-/

namespace OnMapPlotter

/-! ### Python-dict model: insertion-ordered association lists -/

/-- `d[key]` as a total lookup: the value at the first (in a real dict:
only) entry whose key matches, or `none` when the key is absent. -/
def dGet {κ ν : Type} [BEq κ] (d : List (κ × ν)) (key : κ) : Option ν :=
  (d.find? (fun p => p.1 == key)).map (fun p => p.2)

/-- `key in d`. -/
def dHas {κ ν : Type} [BEq κ] (d : List (κ × ν)) (key : κ) : Bool :=
  d.any (fun p => p.1 == key)

/-- `d[key] = val`: overwrite in place when the key is present (Python
dicts keep the original insertion position on overwrite), else append. -/
def dSet {κ ν : Type} [BEq κ] (d : List (κ × ν)) (key : κ) (val : ν) :
    List (κ × ν) :=
  if dHas d key then
    d.map (fun p => if p.1 == key then (p.1, val) else p)
  else d ++ [(key, val)]

/-- `d.pop(key)` (the registry only calls it under a membership guard, so
the `KeyError` branch is never taken; this is the removal itself). -/
def dPop {κ ν : Type} [BEq κ] (d : List (κ × ν)) (key : κ) :
    List (κ × ν) :=
  d.filter (fun p => !(p.1 == key))

/-- `d.update(m)`: assign every entry of `m` into `d`, in order. -/
def dUpdate {κ ν : Type} [BEq κ] (d m : List (κ × ν)) : List (κ × ν) :=
  m.foldl (fun acc p => dSet acc p.1 p.2) d

/-! ### Data model of the line registry -/

/-- A settings value as stored in a line's settings dict: the program
stores numbers (widths, marker sizes) and strings (colors, styles,
labels). -/
inductive SVal : Type where
  | num (n : Int)
  | str (s : String)
deriving DecidableEq, Repr

/-- One entry of `PlotManager.lines`:
`{line_id: {data : (x_data, y_data), settings : dict}}`. -/
structure LineEntry : Type where
  data : List Rat × List Rat
  settings : List (String × SVal)
deriving DecidableEq, Repr

/-- State of `PlotManager` (src/OnMapPlotter.py lines 31-108).  The
`figure`/`axes` handles are GUI objects out of scope; the one piece of
axes state the spec talks about — which background image is currently
drawn by `imshow` — is kept as `displayed_background`. -/
structure PlotManager : Type where
  lines : List (Nat × LineEntry)
  background_image : String
  current_id : Nat
  default_settings : List (String × SVal)
  displayed_background : Option String
deriving DecidableEq, Repr

/-- `PlotManager.__init__`: empty registry, default background path,
counter at 0, and the default settings record built once here — its
`label` interpolates `self.current_id`, which is 0 at this point. -/
def PlotManager.init : PlotManager :=
  let current_id : Nat := 0
  { lines := []
    background_image := "maps\\ortophotoplan_earth_80.jpg"
    current_id := current_id
    default_settings :=
      [("line_width", SVal.num 2),
       ("line_color", SVal.str "blue"),
       ("line_style", SVal.str ":"),
       ("marker_size", SVal.num 0),
       ("marker_color", SVal.str "red"),
       ("label", SVal.str ("График:" ++ toString current_id))]
    displayed_background := none }

/-- `PlotManager.add_line(x_data, y_data, settings=None)`: substitute the
defaults when `settings` is omitted, pre-increment the counter, insert
under the membership guard, return the new id. -/
def PlotManager.add_line (pm : PlotManager) (x_data y_data : List Rat)
    (settings : Option (List (String × SVal))) : PlotManager × Nat :=
  let s := match settings with
    | none => pm.default_settings
    | some s => s
  let current_id := pm.current_id + 1
  let line_id := current_id
  let lines :=
    if !(dHas pm.lines line_id) then
      dSet pm.lines line_id { data := (x_data, y_data), settings := s }
    else pm.lines
  ({ pm with current_id := current_id, lines := lines }, line_id)

/-- `PlotManager.remove_line(line_id)`. -/
def PlotManager.remove_line (pm : PlotManager) (line_id : Nat) :
    PlotManager × Bool :=
  if dHas pm.lines line_id then
    ({ pm with lines := dPop pm.lines line_id }, true)
  else (pm, false)

/-- `PlotManager.update_line_settings(line_id, settings)`: under the
membership guard, mutate the stored settings dict of the matching entry
in place with `dict.update`. -/
def PlotManager.update_line_settings (pm : PlotManager) (line_id : Nat)
    (settings : List (String × SVal)) : PlotManager × Bool :=
  if dHas pm.lines line_id then
    ({ pm with
        lines := pm.lines.map (fun p =>
          if p.1 == line_id then
            (p.1, { p.2 with settings := dUpdate p.2.settings settings })
          else p) }, true)
  else (pm, false)

/-- The arguments of one `self.axes.plot(...)` call issued by
`redraw_plot`. -/
structure PlotCall : Type where
  x : List Rat
  y : List Rat
  linewidth : SVal
  color : SVal
  linestyle : SVal
  marker : Option String
  markersize : SVal
  markerfacecolor : SVal
  label : String
deriving DecidableEq, Repr

/-- The `self.axes.plot(...)` call `redraw_plot` issues for the entry
`(line_id, e)`.  Python evaluates the keyword arguments through dict
lookups: a missing key raises `KeyError`, and
`settings['marker_size'] > 0` on a non-numeric value raises
`TypeError`; either exception aborts the call (`none`).  The legend
label is the f-string `f"График:{line_id}"` straight from the id — the
stored settings label is not consulted. -/
def mkPlotCall (line_id : Nat) (e : LineEntry) : Option PlotCall :=
  match dGet e.settings "line_width", dGet e.settings "line_color",
      dGet e.settings "line_style", dGet e.settings "marker_size",
      dGet e.settings "marker_color" with
  | some lw, some lc, some ls, some ms, some mc =>
    match ms with
    | SVal.num n =>
      some { x := e.data.1
             y := e.data.2
             linewidth := lw
             color := lc
             linestyle := ls
             marker := if 0 < n then some "o" else none
             markersize := SVal.num n
             markerfacecolor := mc
             label := "График:" ++ toString line_id }
    | SVal.str _ => none
  | _, _, _, _, _ => none

/-- The loop of `redraw_plot` over the registry entries, in insertion
order; the first entry whose settings lookups raise propagates the
exception and aborts the whole redraw. -/
def redrawCalls : List (Nat × LineEntry) → Option (List PlotCall)
  | [] => some []
  | p :: rest =>
    match mkPlotCall p.1 p.2 with
    | none => none
    | some c => (redrawCalls rest).map (fun cs => c :: cs)

/-- `PlotManager.redraw_plot`: one `plot` call per registry entry, in
insertion order; `none` when a settings lookup raises and the redraw
aborts with an exception. -/
def PlotManager.redraw_plot (pm : PlotManager) : Option (List PlotCall) :=
  redrawCalls pm.lines

/-- `PlotManager.redraw_map(path=None)`.  `loadOk` abstracts whether
`imread` succeeds on a given path.  The path assignment happens BEFORE
the `try` block.  On success `imshow` draws the image
(`displayed_background` is replaced); on failure `messagebox.showerror`
runs and the axes keep whatever was drawn before.  Returns the new state
and whether the load succeeded (`false` = error was reported). -/
def PlotManager.redraw_map (pm : PlotManager) (path : Option String)
    (loadOk : String → Bool) : PlotManager × Bool :=
  let pm := match path with
    | some p => { pm with background_image := p }
    | none => pm
  if loadOk pm.background_image then
    ({ pm with displayed_background := some pm.background_image }, true)
  else (pm, false)

/-! ### The table reader `readTxtTable` (src/OnMapPlotter.py lines 9-29) -/

/-- One cell of a row: a parsed float or the trailing string label. -/
inductive Cell : Type where
  | num (q : Rat)
  | str (s : String)
deriving DecidableEq, Repr

/-- `file.readlines()`: split after every newline, keeping the newline at
the end of each piece; a final piece without a newline is kept too. -/
def splitKeepNl : List Char → List Char → List (List Char)
  | [], acc => if acc.isEmpty then [] else [acc.reverse]
  | c :: rest, acc =>
    if c = '\n' then (acc.reverse ++ ['\n']) :: splitKeepNl rest []
    else splitKeepNl rest (c :: acc)

/-- The list of lines of the input text, each still ending in `'\n'`
except possibly the last. -/
def readlines (s : String) : List (List Char) := splitKeepNl s.data []

/-- The skip test of line 13:
`line[0] == '#' or line.lstrip(' ') == '\n'` — `lstrip(' ')` strips
SPACES only, so only a run of spaces followed by the bare newline counts
as blank. -/
def skipLine (l : List Char) : Bool :=
  l.head? == some '#' || l.dropWhile (fun c => c == ' ') == ['\n']

/-- The value of a run of decimal digits. -/
def natOfDigits (l : List Char) : Nat :=
  l.foldl (fun a c => a * 10 + (c.toNat - 48)) 0

/-- Python `float()` on an unsigned string drawn from the characters
`.0123456789`: optional integer part, optional `'.'` plus fractional
part, at least one digit overall; anything else raises `ValueError`
(`none`). -/
def pyFloatCore (l : List Char) : Option Rat :=
  let ip := l.takeWhile Char.isDigit
  let rest := l.dropWhile Char.isDigit
  match rest with
  | [] => if ip.isEmpty then none else some (mkRat (natOfDigits ip) 1)
  | '.' :: frac =>
    if frac.all Char.isDigit && (!ip.isEmpty || !frac.isEmpty) then
      some (mkRat (natOfDigits ip * 10 ^ frac.length + natOfDigits frac)
        (10 ^ frac.length))
    else none
  | _ => none

/-- Python `float(cell)` where `cell` was collected from the characters
`-.1234567890`: an optional leading minus sign, then `pyFloatCore`. -/
def pyFloat : List Char → Option Rat
  | '-' :: rest => (pyFloatCore rest).map (fun q => -q)
  | l => pyFloatCore l

/-- `s.strip(' ')`: drop spaces from both ends. -/
def stripSpaces (l : List Char) : List Char :=
  ((l.dropWhile (fun c => c == ' ')).reverse.dropWhile
    (fun c => c == ' ')).reverse

/-- `s.rstrip('\n')`: drop newlines from the right end. -/
def rstripNl (l : List Char) : List Char :=
  (l.reverse.dropWhile (fun c => c == '\n')).reverse

/-- The inner character loop of `readTxtTable` (lines 14-26), scanning
one line: space/tab flushes a pending cell through `float` (a cell that
is still pending when the loop runs out is NEVER flushed — the loop has
no epilogue); a character of `-.1234567890` extends the cell; an
alphabetic character appends the stripped rest of the line as a string
cell and breaks; anything else (the newline included) is skipped. -/
def scanLine : List Char → List Char → List Cell → Option (List Cell)
  | [], _cell, cells => some cells
  | c :: rest, cell, cells =>
    if c == ' ' || c == '\t' then
      if !cell.isEmpty then
        match pyFloat cell with
        | some q => scanLine rest [] (cells ++ [Cell.num q])
        | none => none
      else scanLine rest [] cells
    else if ("-.1234567890".data.contains c) then
      scanLine rest (cell ++ [c]) cells
    else if c.isAlpha then
      some (cells ++ [Cell.str (String.mk (rstripNl (stripSpaces (c :: rest))))])
    else scanLine rest cell cells

/-- The outer loop of `readTxtTable`: skipped lines contribute nothing,
every other line contributes the cells its scan produced; a `ValueError`
anywhere aborts the whole call (`none`). -/
def readRows : List (List Char) → Option (List (List Cell))
  | [] => some []
  | line :: rest =>
    if skipLine line then readRows rest
    else
      match scanLine line [] [] with
      | none => none
      | some cells => (readRows rest).map (fun rs => cells :: rs)

/-- `readTxtTable(file)` on the text content of the file. -/
def readTxtTable (s : String) : Option (List (List Cell)) :=
  readRows (readlines s)

/-! ### Sessions: sequences of operations on one `PlotManager` -/

/-- One mutating call a client can make on the manager during a session.
`redrawMap` carries the outcome the image loader would report for any
path it is asked for. -/
inductive Op : Type where
  | add (x y : List Rat) (settings : Option (List (String × SVal)))
  | remove (line_id : Nat)
  | update (line_id : Nat) (settings : List (String × SVal))
  | redrawMap (path : Option String) (ok : Bool)

/-- Execute one operation, keeping the state. -/
def step (pm : PlotManager) : Op → PlotManager
  | Op.add x y s => (pm.add_line x y s).1
  | Op.remove i => (pm.remove_line i).1
  | Op.update i s => (pm.update_line_settings i s).1
  | Op.redrawMap p ok => (pm.redraw_map p (fun _ => ok)).1

/-- The state after running a whole session from a fresh manager. -/
def run (ops : List Op) : PlotManager :=
  ops.foldl step PlotManager.init

/-- The ids one operation hands out: `add_line` returns its new id, the
other operations return booleans, not ids. -/
def opAddedId (pm : PlotManager) : Op → List Nat
  | Op.add x y s => [(pm.add_line x y s).2]
  | Op.remove _ => []
  | Op.update _ _ => []
  | Op.redrawMap _ _ => []

/-- The ids returned by the `add_line` calls of a session starting at
`pm`, in call order. -/
def addedIds (pm : PlotManager) : List Op → List Nat
  | [] => []
  | op :: ops => opAddedId pm op ++ addedIds (step pm op) ops

/-- Every id in the registry is bounded by the counter. -/
def idsBounded (pm : PlotManager) : Prop :=
  ∀ p ∈ pm.lines, p.1 ≤ pm.current_id

/-- The registry keys are pairwise distinct (automatic for a Python
dict; the association-list embedding states it explicitly). -/
def keysNodup (pm : PlotManager) : Prop :=
  (pm.lines.map Prod.fst).Nodup

/-- The combined invariant: ids bounded by the counter and keys
pairwise distinct. -/
def goodState (pm : PlotManager) : Prop := idsBounded pm ∧ keysNodup pm

/-- A concrete one-line manager (fresh manager after one `add_line` with
the settings omitted), used to instantiate theorems at concrete
inputs. -/
def pmOne : PlotManager := (PlotManager.init.add_line [] [] none).1

/-! ### Lemmas about the dict model -/

section DictLemmas

variable {κ ν : Type} [BEq κ]

theorem dHas_cons (p : κ × ν) (rest : List (κ × ν)) (key : κ) :
    dHas (p :: rest) key = (p.1 == key || dHas rest key) := rfl

theorem dGet_cons (p : κ × ν) (rest : List (κ × ν)) (key : κ) :
    dGet (p :: rest) key = if p.1 == key then some p.2 else dGet rest key := by
  by_cases h : p.1 == key
  · simp [dGet, List.find?_cons_of_pos, h]
  · simp only [Bool.not_eq_true] at h
    simp [dGet, List.find?_cons_of_neg, h]

theorem dGet_append_of_not_has (d d2 : List (κ × ν)) (key : κ)
    (h : dHas d key = false) : dGet (d ++ d2) key = dGet d2 key := by
  induction d with
  | nil => rfl
  | cons p rest ih =>
    rw [dHas_cons, Bool.or_eq_false_iff] at h
    rw [List.cons_append, dGet_cons, if_neg (by simp [h.1])]
    exact ih h.2

theorem dGet_of_not_has (d : List (κ × ν)) (key : κ)
    (h : dHas d key = false) : dGet d key = none := by
  have h2 := dGet_append_of_not_has d [] key h
  simpa using h2

theorem dSet_of_not_has (d : List (κ × ν)) (key : κ) (val : ν)
    (h : dHas d key = false) : dSet d key val = d ++ [(key, val)] := by
  rw [dSet, if_neg (by simp [h])]

theorem dGet_append_single_ne (d : List (κ × ν)) (key k2 : κ) (val : ν)
    (h : (key == k2) = false) : dGet (d ++ [(key, val)]) k2 = dGet d k2 := by
  induction d with
  | nil =>
    rw [List.nil_append, dGet_cons, if_neg (by simp [h])]
  | cons p rest ih =>
    rw [List.cons_append, dGet_cons, dGet_cons]
    by_cases hk : p.1 == k2
    · rw [if_pos hk, if_pos hk]
    · rw [if_neg hk, if_neg hk]
      exact ih

theorem dHas_iff_mem [LawfulBEq κ] (d : List (κ × ν)) (key : κ) :
    dHas d key = true ↔ key ∈ d.map Prod.fst := by
  simp only [dHas, List.any_eq_true, List.mem_map, beq_iff_eq]

theorem dHas_false_of_not_mem [LawfulBEq κ] (d : List (κ × ν)) (key : κ)
    (h : key ∉ d.map Prod.fst) : dHas d key = false := by
  rw [← Bool.not_eq_true, dHas_iff_mem]; exact h

theorem dGet_map_set_self (d : List (κ × ν)) (key : κ) (val : ν)
    (h : dHas d key = true) :
    dGet (d.map (fun p => if p.1 == key then (p.1, val) else p)) key
      = some val := by
  induction d with
  | nil => simp [dHas] at h
  | cons p rest ih =>
    by_cases hp : p.1 == key
    · simp [hp, dGet_cons]
    · simp only [dHas_cons, hp, Bool.false_or] at h
      simp [hp, dGet_cons, ih h]

theorem dGet_map_set_ne [LawfulBEq κ] (d : List (κ × ν)) (key k2 : κ) (val : ν)
    (h : (key == k2) = false) :
    dGet (d.map (fun p => if p.1 == key then (p.1, val) else p)) k2
      = dGet d k2 := by
  induction d with
  | nil => rfl
  | cons p rest ih =>
    by_cases hp : p.1 == key
    · have h1 : p.1 = key := by simpa using hp
      have hpk : (p.1 == k2) = false := by
        rw [h1]; exact h
      simp [hp, dGet_cons, hpk, ih]
    · by_cases hk : p.1 == k2
      · simp [hp, dGet_cons, hk]
      · simp [hp, dGet_cons, hk, ih]

theorem dGet_dSet_self [LawfulBEq κ] (d : List (κ × ν)) (key : κ) (val : ν) :
    dGet (dSet d key val) key = some val := by
  by_cases h : dHas d key
  · rw [dSet, if_pos h]; exact dGet_map_set_self d key val h
  · have h2 : dHas d key = false := by simpa using h
    rw [dSet, if_neg (by simp [h2]), dGet_append_of_not_has _ _ _ h2,
      dGet_cons]
    simp

theorem dGet_dSet_ne [LawfulBEq κ] (d : List (κ × ν)) (key k2 : κ) (val : ν)
    (h : (key == k2) = false) : dGet (dSet d key val) k2 = dGet d k2 := by
  by_cases hh : dHas d key
  · rw [dSet, if_pos hh]; exact dGet_map_set_ne d key k2 val h
  · have h2 : dHas d key = false := by simpa using hh
    rw [dSet, if_neg (by simp [h2])]
    exact dGet_append_single_ne d key k2 val h

theorem dGet_dUpdate_not_has [LawfulBEq κ] (d m : List (κ × ν)) (key : κ)
    (h : dHas m key = false) : dGet (dUpdate d m) key = dGet d key := by
  induction m generalizing d with
  | nil => rfl
  | cons p rest ih =>
    simp only [dHas_cons, Bool.or_eq_false_iff] at h
    have hstep : dUpdate d (p :: rest) = dUpdate (dSet d p.1 p.2) rest := rfl
    rw [hstep, ih _ h.2, dGet_dSet_ne _ _ _ _ h.1]

theorem dGet_dUpdate_of_get [LawfulBEq κ] (d m : List (κ × ν)) (key : κ)
    (val : ν) (hn : (m.map Prod.fst).Nodup) (h : dGet m key = some val) :
    dGet (dUpdate d m) key = some val := by
  induction m generalizing d with
  | nil => simp [dGet] at h
  | cons p rest ih =>
    rw [List.map_cons, List.nodup_cons] at hn
    rw [dGet_cons] at h
    have hstep : dUpdate d (p :: rest) = dUpdate (dSet d p.1 p.2) rest := rfl
    by_cases hp : p.1 == key
    · rw [if_pos hp] at h
      have h1 : p.1 = key := by simpa using hp
      have hrest : dHas rest key = false :=
        dHas_false_of_not_mem rest key (h1 ▸ hn.1)
      rw [hstep, dGet_dUpdate_not_has _ _ _ hrest, ← h1, dGet_dSet_self]
      exact h
    · rw [if_neg hp] at h
      rw [hstep]
      exact ih _ hn.2 h

theorem dPop_of_not_has (d : List (κ × ν)) (key : κ)
    (h : dHas d key = false) : dPop d key = d := by
  induction d with
  | nil => rfl
  | cons p rest ih =>
    simp only [dHas_cons, Bool.or_eq_false_iff] at h
    rw [dPop, List.filter_cons, if_pos (by simp [h.1])]
    have h2 := ih h.2
    rw [dPop] at h2
    rw [h2]

theorem dGet_dPop_self (d : List (κ × ν)) (key : κ) :
    dGet (dPop d key) key = none := by
  induction d with
  | nil => rfl
  | cons p rest ih =>
    by_cases hp : p.1 == key
    · rw [dPop, List.filter_cons, if_neg (by simp [hp])]
      exact ih
    · rw [dPop, List.filter_cons,
        if_pos (by simp [Bool.not_eq_true] at hp ⊢; exact hp), dGet_cons,
        if_neg hp]
      exact ih

theorem dGet_dPop_ne [LawfulBEq κ] (d : List (κ × ν)) (key k2 : κ)
    (h : (k2 == key) = false) : dGet (dPop d key) k2 = dGet d k2 := by
  induction d with
  | nil => rfl
  | cons p rest ih =>
    by_cases hp : p.1 == key
    · have h1 : p.1 = key := by simpa using hp
      have hpk : (p.1 == k2) = false := by
        rw [h1, beq_eq_false_iff_ne]
        rw [beq_eq_false_iff_ne] at h
        exact fun hk => h hk.symm
      rw [dPop, List.filter_cons, if_neg (by simp [hp]), dGet_cons,
        if_neg (by simp [hpk])]
      exact ih
    · rw [dPop, List.filter_cons,
        if_pos (by simp [Bool.not_eq_true] at hp ⊢; exact hp), dGet_cons,
        dGet_cons]
      by_cases hk : p.1 == k2
      · rw [if_pos hk, if_pos hk]
      · rw [if_neg hk, if_neg hk]
        exact ih

theorem dPop_length [LawfulBEq κ] (d : List (κ × ν)) (key : κ)
    (hn : (d.map Prod.fst).Nodup) (h : dHas d key = true) :
    (dPop d key).length + 1 = d.length := by
  induction d with
  | nil => simp [dHas] at h
  | cons p rest ih =>
    rw [List.map_cons, List.nodup_cons] at hn
    by_cases hp : p.1 == key
    · have h1 : p.1 = key := by simpa using hp
      have hrest : dHas rest key = false :=
        dHas_false_of_not_mem rest key (h1 ▸ hn.1)
      rw [dPop, List.filter_cons, if_neg (by simp [hp])]
      have h2 := dPop_of_not_has rest key hrest
      rw [dPop] at h2
      rw [h2, List.length_cons]
    · simp only [dHas_cons, hp, Bool.false_or] at h
      have ihh := ih hn.2 h
      rw [dPop] at ihh
      rw [dPop, List.filter_cons,
        if_pos (by simp [Bool.not_eq_true] at hp ⊢; exact hp),
        List.length_cons, List.length_cons]
      omega

end DictLemmas

/-! ### Lemmas about the manager operations -/

theorem add_line_snd (pm : PlotManager) (x y : List Rat)
    (s : Option (List (String × SVal))) :
    (pm.add_line x y s).2 = pm.current_id + 1 := rfl

theorem add_line_current_id (pm : PlotManager) (x y : List Rat)
    (s : Option (List (String × SVal))) :
    (pm.add_line x y s).1.current_id = pm.current_id + 1 := rfl

theorem add_line_lines (pm : PlotManager) (x y : List Rat)
    (s : Option (List (String × SVal)))
    (h : dHas pm.lines (pm.current_id + 1) = false) :
    (pm.add_line x y s).1.lines
      = pm.lines ++ [(pm.current_id + 1,
          { data := (x, y),
            settings := match s with
              | none => pm.default_settings
              | some s => s })] := by
  show (if !(dHas pm.lines (pm.current_id + 1)) then
          dSet pm.lines (pm.current_id + 1) _ else pm.lines) = _
  rw [h, Bool.not_false, if_pos rfl]
  exact dSet_of_not_has _ _ _ h

theorem remove_line_current_id (pm : PlotManager) (i : Nat) :
    (pm.remove_line i).1.current_id = pm.current_id := by
  by_cases h : dHas pm.lines i <;> simp [PlotManager.remove_line, h]

theorem update_line_settings_current_id (pm : PlotManager) (i : Nat)
    (s : List (String × SVal)) :
    (pm.update_line_settings i s).1.current_id = pm.current_id := by
  by_cases h : dHas pm.lines i <;> simp [PlotManager.update_line_settings, h]

theorem redraw_map_current_id (pm : PlotManager) (path : Option String)
    (lo : String → Bool) :
    (pm.redraw_map path lo).1.current_id = pm.current_id := by
  cases path <;> simp only [PlotManager.redraw_map] <;> split <;> rfl

theorem redraw_map_lines (pm : PlotManager) (path : Option String)
    (lo : String → Bool) :
    (pm.redraw_map path lo).1.lines = pm.lines := by
  cases path <;> simp only [PlotManager.redraw_map] <;> split <;> rfl

theorem step_current_id_le (pm : PlotManager) (op : Op) :
    pm.current_id ≤ (step pm op).current_id := by
  cases op with
  | add x y s => rw [step, add_line_current_id]; exact Nat.le_succ _
  | remove i => rw [step, remove_line_current_id]
  | update i s => rw [step, update_line_settings_current_id]
  | redrawMap p ok => rw [step, redraw_map_current_id]

theorem not_has_succ (pm : PlotManager) (h : idsBounded pm) :
    dHas pm.lines (pm.current_id + 1) = false := by
  apply dHas_false_of_not_mem
  intro hmem
  rw [List.mem_map] at hmem
  obtain ⟨p, hp, hfst⟩ := hmem
  have hle := h p hp
  omega

theorem goodState_init : goodState PlotManager.init := by
  constructor
  · intro p hp
    simp [PlotManager.init] at hp
  · simp [keysNodup, PlotManager.init]

theorem goodState_step (pm : PlotManager) (op : Op) (h : goodState pm) :
    goodState (step pm op) := by
  obtain ⟨hb, hn⟩ := h
  cases op with
  | add x y s =>
    have hfresh := not_has_succ pm hb
    have hl := add_line_lines pm x y s hfresh
    have hcid : (step pm (Op.add x y s)).current_id = pm.current_id + 1 :=
      add_line_current_id pm x y s
    have hls : (step pm (Op.add x y s)).lines = (pm.add_line x y s).1.lines :=
      rfl
    constructor
    · intro p hp
      rw [idsBounded] at hb
      rw [hcid]
      rw [hls, hl, List.mem_append] at hp
      rcases hp with hp | hp
      · have := hb p hp; omega
      · rw [List.mem_singleton] at hp
        rw [hp]
    · show ((step pm (Op.add x y s)).lines.map Prod.fst).Nodup
      rw [hls, hl, List.map_append]
      apply List.Nodup.append hn
      · simp
      · rw [List.map_singleton]
        intro k hk1 hk2
        rw [List.mem_singleton] at hk2
        rw [List.mem_map] at hk1
        obtain ⟨p, hp, hfst⟩ := hk1
        have := hb p hp
        omega
  | remove i =>
    rw [step, PlotManager.remove_line]
    by_cases hh : dHas pm.lines i
    · rw [if_pos hh]
      constructor
      · intro p hp
        exact hb p (List.mem_of_mem_filter hp)
      · have hsub : ((pm.lines.filter (fun p => !(p.1 == i))).map
            Prod.fst).Sublist (pm.lines.map Prod.fst) :=
          List.Sublist.map Prod.fst (List.filter_sublist pm.lines)
        exact hn.sublist hsub
    · rw [if_neg hh]
      exact ⟨hb, hn⟩
  | update i s =>
    rw [step, PlotManager.update_line_settings]
    by_cases hh : dHas pm.lines i
    · rw [if_pos hh]
      have hkeys : ∀ p : Nat × LineEntry,
          ((fun p => if p.1 == i then
              (p.1, { p.2 with settings := dUpdate p.2.settings s })
            else p) p).1 = p.1 := by
        intro p
        by_cases hp : p.1 == i <;> simp [hp]
      constructor
      · intro p hp
        rw [List.mem_map] at hp
        obtain ⟨q, hq, rfl⟩ := hp
        have h1 := hkeys q
        rw [h1]
        exact hb q hq
      · show ((pm.lines.map _).map Prod.fst).Nodup
        rw [List.map_map]
        have : pm.lines.map (Prod.fst ∘ (fun p => if p.1 == i then
            (p.1, { p.2 with settings := dUpdate p.2.settings s })
          else p)) = pm.lines.map Prod.fst := by
          apply List.map_congr_left
          intro p _
          exact hkeys p
        rw [this]
        exact hn
    · rw [if_neg hh]
      exact ⟨hb, hn⟩
  | redrawMap p ok =>
    constructor
    · intro q hq
      rw [step, redraw_map_current_id]
      rw [step, redraw_map_lines] at hq
      exact hb q hq
    · show (((pm.redraw_map p _).1.lines).map Prod.fst).Nodup
      rw [redraw_map_lines]
      exact hn

theorem goodState_foldl (ops : List Op) (pm : PlotManager)
    (h : goodState pm) : goodState (ops.foldl step pm) := by
  induction ops generalizing pm with
  | nil => exact h
  | cons op rest ih => exact ih _ (goodState_step pm op h)

theorem goodState_run (ops : List Op) : goodState (run ops) :=
  goodState_foldl ops PlotManager.init goodState_init

/-! ### Lemmas about the ids a session hands out -/

theorem addedIds_gt (ops : List Op) (pm : PlotManager) :
    ∀ i ∈ addedIds pm ops, pm.current_id < i := by
  induction ops generalizing pm with
  | nil =>
    intro i hi
    simp [addedIds] at hi
  | cons op rest ih =>
    intro i hi
    rw [addedIds, List.mem_append] at hi
    have hstep := step_current_id_le pm op
    rcases hi with hi | hi
    · cases op with
      | add x y s =>
        rw [opAddedId, List.mem_singleton] at hi
        rw [hi, add_line_snd]
        omega
      | remove j => rw [opAddedId] at hi; exact absurd hi (List.not_mem_nil i)
      | update j s => rw [opAddedId] at hi; exact absurd hi (List.not_mem_nil i)
      | redrawMap p ok =>
        rw [opAddedId] at hi; exact absurd hi (List.not_mem_nil i)
    · have h3 := ih (step pm op) i hi
      omega

theorem addedIds_pairwise (ops : List Op) (pm : PlotManager) :
    (addedIds pm ops).Pairwise (fun a b => a < b) := by
  induction ops generalizing pm with
  | nil => simp [addedIds]
  | cons op rest ih =>
    rw [addedIds]
    cases op with
    | add x y s =>
      rw [opAddedId, List.singleton_append]
      refine List.Pairwise.cons ?_ (ih _)
      intro j hj
      have h1 := addedIds_gt rest (step pm (Op.add x y s)) j hj
      have h2 : (step pm (Op.add x y s)).current_id = pm.current_id + 1 :=
        add_line_current_id pm x y s
      rw [add_line_snd]
      omega
    | remove j =>
      rw [opAddedId, List.nil_append]
      exact ih _
    | update j s =>
      rw [opAddedId, List.nil_append]
      exact ih _
    | redrawMap p ok =>
      rw [opAddedId, List.nil_append]
      exact ih _

/-! ### Lemmas about the in-place settings update on the registry -/

theorem dGet_lines_update_self (d : List (Nat × LineEntry)) (i : Nat)
    (s : List (String × SVal)) :
    dGet (d.map (fun p => if p.1 == i then
        (p.1, { p.2 with settings := dUpdate p.2.settings s }) else p)) i
      = (dGet d i).map
          (fun e => { e with settings := dUpdate e.settings s }) := by
  induction d with
  | nil => rfl
  | cons p rest ih =>
    rw [List.map_cons]
    by_cases hp : p.1 == i
    · rw [if_pos hp, dGet_cons, dGet_cons]
      simp [hp]
    · rw [if_neg hp, dGet_cons, dGet_cons, if_neg hp, if_neg hp]
      exact ih

theorem dGet_lines_update_ne (d : List (Nat × LineEntry)) (i j : Nat)
    (s : List (String × SVal)) (h : (j == i) = false) :
    dGet (d.map (fun p => if p.1 == i then
        (p.1, { p.2 with settings := dUpdate p.2.settings s }) else p)) j
      = dGet d j := by
  induction d with
  | nil => rfl
  | cons p rest ih =>
    rw [List.map_cons]
    by_cases hp : p.1 == i
    · have h1 : p.1 = i := by simpa using hp
      have hpj : (p.1 == j) = false := by
        rw [h1, beq_eq_false_iff_ne]
        rw [beq_eq_false_iff_ne] at h
        exact fun hk => h hk.symm
      rw [if_pos hp, dGet_cons, dGet_cons]
      simp only [hpj, Bool.false_eq_true, if_false]
      exact ih
    · rw [if_neg hp, dGet_cons, dGet_cons]
      by_cases hk : p.1 == j
      · rw [if_pos hk, if_pos hk]
      · rw [if_neg hk, if_neg hk]
        exact ih

theorem dHas_of_dGet_some {κ ν : Type} [BEq κ] (d : List (κ × ν)) (key : κ)
    (v : ν) (h : dGet d key = some v) : dHas d key = true := by
  induction d with
  | nil => cases h
  | cons p rest ih =>
    rw [dGet_cons] at h
    rw [dHas_cons]
    by_cases hp : p.1 == key
    · rw [hp, Bool.true_or]
    · rw [if_neg hp] at h
      rw [ih h, Bool.or_true]

/-! ### The claims -/

/-- C1: over every session of operations on a fresh `PlotManager`, the
ids returned by the successive `add_line` calls are strictly increasing
and never repeat, even when earlier ids have been removed: the counter
only increases and freed ids are never reassigned. -/
theorem claim_C1_ids_strictly_increasing (ops : List Op) :
    (addedIds PlotManager.init ops).Pairwise (fun a b => a < b) :=
  addedIds_pairwise ops PlotManager.init

/-- C9: in every reachable `PlotManager` state the counter dominates
every id in the registry, so the membership check inside `add_line`
never prevents the insertion and every `add_line` call grows the
registry by exactly one entry. -/
theorem claim_C9_counter_dominates_ids (ops : List Op) (x y : List Rat)
    (s : Option (List (String × SVal))) :
    idsBounded (run ops) ∧
    dHas (run ops).lines ((run ops).current_id + 1) = false ∧
    ((run ops).add_line x y s).1.lines.length = (run ops).lines.length + 1 := by
  have hg := goodState_run ops
  have hfresh := not_has_succ (run ops) hg.1
  refine ⟨hg.1, hfresh, ?_⟩
  rw [add_line_lines (run ops) x y s hfresh, List.length_append]
  rfl

/-- C7: `remove_line(id)` returns the membership of `id`; when `id` is
present it deletes exactly that entry (size drops by one, the id is no
longer found, every other id is untouched); when `id` is absent it
leaves the state completely unchanged.  It is a total function — no
error is raised. -/
theorem claim_C7_remove_line (pm : PlotManager) (line_id : Nat)
    (hk : keysNodup pm) :
    ((pm.remove_line line_id).2 = dHas pm.lines line_id) ∧
    (dHas pm.lines line_id = false → (pm.remove_line line_id).1 = pm) ∧
    (dHas pm.lines line_id = true →
      (pm.remove_line line_id).1.lines.length + 1 = pm.lines.length ∧
      dGet (pm.remove_line line_id).1.lines line_id = none) ∧
    (∀ j, (j == line_id) = false →
      dGet (pm.remove_line line_id).1.lines j = dGet pm.lines j) := by
  by_cases hh : dHas pm.lines line_id
  · rw [PlotManager.remove_line, if_pos hh]
    refine ⟨by rw [hh], ?_, ?_, ?_⟩
    · intro hf
      rw [hf] at hh
      cases hh
    · intro _
      exact ⟨dPop_length pm.lines line_id hk hh,
        dGet_dPop_self pm.lines line_id⟩
    · intro j hj
      exact dGet_dPop_ne pm.lines line_id j hj
  · have h2 : dHas pm.lines line_id = false := by simpa using hh
    rw [PlotManager.remove_line, if_neg hh]
    exact ⟨by rw [h2], fun _ => rfl, fun htrue => absurd htrue hh,
      fun j hj => rfl⟩

/-- C7 witness: the theorem instantiated on a concrete one-line manager,
removing the present id 1 and the absent id 2. -/
theorem claim_C7_witness :
    (pmOne.remove_line 1).2 = true ∧
    (pmOne.remove_line 1).1.lines.length + 1 = pmOne.lines.length ∧
    (pmOne.remove_line 2).1 = pmOne := by
  have h1 := claim_C7_remove_line pmOne 1
    (by show (pmOne.lines.map Prod.fst).Nodup; decide)
  have h2 := claim_C7_remove_line pmOne 2
    (by show (pmOne.lines.map Prod.fst).Nodup; decide)
  refine ⟨?_, (h1.2.2.1 (by decide)).1, h2.2.1 (by decide)⟩
  rw [h1.1]
  decide

/-- C6: `update_line_settings(id, m)` returns the membership of `id`;
when `id` is present it merges exactly the listed fields into that
line's settings (listed keys take the merged values, unlisted keys keep
their prior values), keeps that line's points, leaves every other line
untouched and the rest of the state unchanged; when `id` is absent it
changes nothing. -/
theorem claim_C6_update_line_settings (pm : PlotManager) (line_id : Nat)
    (m : List (String × SVal)) (hn : (m.map Prod.fst).Nodup) :
    ((pm.update_line_settings line_id m).2 = dHas pm.lines line_id) ∧
    (dHas pm.lines line_id = false →
      (pm.update_line_settings line_id m).1 = pm) ∧
    (∀ e, dGet pm.lines line_id = some e →
      dGet (pm.update_line_settings line_id m).1.lines line_id
        = some { data := e.data, settings := dUpdate e.settings m }) ∧
    (∀ e k, dGet pm.lines line_id = some e → dHas m k = false →
      dGet (dUpdate e.settings m) k = dGet e.settings k) ∧
    (∀ e k v, dGet pm.lines line_id = some e → dGet m k = some v →
      dGet (dUpdate e.settings m) k = some v) ∧
    (∀ j, (j == line_id) = false →
      dGet (pm.update_line_settings line_id m).1.lines j
        = dGet pm.lines j) ∧
    (pm.update_line_settings line_id m).1.current_id = pm.current_id ∧
    (pm.update_line_settings line_id m).1.background_image
      = pm.background_image := by
  by_cases hh : dHas pm.lines line_id
  · rw [PlotManager.update_line_settings, if_pos hh]
    refine ⟨by rw [hh], ?_, ?_, ?_, ?_, ?_, rfl, rfl⟩
    · intro hf
      rw [hf] at hh
      cases hh
    · intro e he
      rw [dGet_lines_update_self pm.lines line_id m, he]
      rfl
    · intro e k _he hk
      exact dGet_dUpdate_not_has e.settings m k hk
    · intro e k v _he hv
      exact dGet_dUpdate_of_get e.settings m k v hn hv
    · intro j hj
      exact dGet_lines_update_ne pm.lines line_id j m hj
  · have h2 : dHas pm.lines line_id = false := by simpa using hh
    rw [PlotManager.update_line_settings, if_neg hh]
    refine ⟨by rw [h2], fun _ => rfl, ?_, ?_, ?_, fun j hj => rfl, rfl, rfl⟩
    · intro e he
      rw [dGet_of_not_has pm.lines line_id h2] at he
      cases he
    · intro e k _he hk
      exact dGet_dUpdate_not_has e.settings m k hk
    · intro e k v _he hv
      exact dGet_dUpdate_of_get e.settings m k v hn hv

/-- C6 witness: on a concrete one-line manager, updating the width of
the present id 1 stores the merged settings, and updating the absent
id 2 changes nothing. -/
theorem claim_C6_witness :
    dGet (pmOne.update_line_settings 1
        [("line_width", SVal.num 5)]).1.lines 1
      = some { data := ([], []),
               settings := dUpdate PlotManager.init.default_settings
                 [("line_width", SVal.num 5)] } ∧
    (pmOne.update_line_settings 2 [("line_width", SVal.num 5)]).1
      = pmOne := by
  have h1 := claim_C6_update_line_settings pmOne 1
    [("line_width", SVal.num 5)] (by decide)
  have h2 := claim_C6_update_line_settings pmOne 2
    [("line_width", SVal.num 5)] (by decide)
  exact ⟨h1.2.2.1
      { data := ([], []), settings := PlotManager.init.default_settings }
      (by decide),
    h2.2.1 (by decide)⟩

/-- C10: for a present id, `update_line_settings(id, m)` stores the
value of every key of `m` into the line's settings, with no restriction
to the six defined settings fields — novel keys are accepted and added
rather than rejected. -/
theorem claim_C10_update_accepts_any_key (pm : PlotManager)
    (line_id : Nat) (m : List (String × SVal)) (e : LineEntry) (k : String)
    (v : SVal) (hn : (m.map Prod.fst).Nodup)
    (he : dGet pm.lines line_id = some e) (hv : dGet m k = some v) :
    (pm.update_line_settings line_id m).2 = true ∧
    dGet (pm.update_line_settings line_id m).1.lines line_id
      = some { data := e.data, settings := dUpdate e.settings m } ∧
    dGet (dUpdate e.settings m) k = some v := by
  have hh : dHas pm.lines line_id = true :=
    dHas_of_dGet_some pm.lines line_id e he
  rw [PlotManager.update_line_settings, if_pos hh]
  refine ⟨rfl, ?_, dGet_dUpdate_of_get e.settings m k v hn hv⟩
  rw [dGet_lines_update_self pm.lines line_id m, he]
  rfl

/-- C10 witness: a key outside the six defined settings fields is
accepted and stored. -/
theorem claim_C10_witness :
    dGet (pmOne.update_line_settings 1
        [("custom_field", SVal.num 7)]).1.lines 1
      = some { data := ([], []),
               settings := dUpdate PlotManager.init.default_settings
                 [("custom_field", SVal.num 7)] } ∧
    dGet (dUpdate PlotManager.init.default_settings
        [("custom_field", SVal.num 7)]) "custom_field"
      = some (SVal.num 7) := by
  have h := claim_C10_update_accepts_any_key pmOne 1
    [("custom_field", SVal.num 7)]
    { data := ([], []), settings := PlotManager.init.default_settings }
    "custom_field" (SVal.num 7) (by decide) (by decide) (by decide)
  exact ⟨h.2.1, h.2.2⟩

/-- C5 counterexample: the very first `add_line` on a fresh manager with
the settings omitted is assigned id 1, but the stored label default is
the string interpolated at construction time from counter value 0 —
`"График:0"`, not a label derived from the assigned id 1. -/
theorem claim_C5_counterexample :
    (PlotManager.init.add_line [] [] none).2 = 1 ∧
    dGet (PlotManager.init.add_line [] [] none).1.lines 1
      = some { data := ([], []),
               settings := PlotManager.init.default_settings } ∧
    dGet PlotManager.init.default_settings "label"
      = some (SVal.str "График:0") ∧
    ¬ SVal.str "График:0" = SVal.str "График:1" := by decide

/-- C5 amended: `add_line` with settings omitted stores the manager's
`default_settings` record; its contents are `line_width = 2`,
`line_color = blue`, `line_style = ":"` (dotted), `marker_size = 0`,
`marker_color = red` and `label = "График:0"` — the label is derived
from the counter value at construction time (0), not from the id
assigned to the new line. -/
theorem claim_C5_amended (pm : PlotManager) (x y : List Rat)
    (h : dHas pm.lines (pm.current_id + 1) = false) :
    dGet (pm.add_line x y none).1.lines (pm.add_line x y none).2
      = some { data := (x, y), settings := pm.default_settings } ∧
    PlotManager.init.default_settings
      = [("line_width", SVal.num 2), ("line_color", SVal.str "blue"),
         ("line_style", SVal.str ":"), ("marker_size", SVal.num 0),
         ("marker_color", SVal.str "red"),
         ("label", SVal.str "График:0")] := by
  refine ⟨?_, rfl⟩
  rw [add_line_snd, add_line_lines pm x y none h,
    dGet_append_of_not_has _ _ _ h, dGet_cons, if_pos (by simp)]

/-- C5 witness: the amended theorem instantiated on the fresh
manager. -/
theorem claim_C5_witness :
    dGet (PlotManager.init.add_line [] [] none).1.lines
        (PlotManager.init.add_line [] [] none).2
      = some { data := ([], []),
               settings := PlotManager.init.default_settings } :=
  (claim_C5_amended PlotManager.init [] [] (by decide)).1

theorem mkPlotCall_label (line_id : Nat) (e : LineEntry) (c : PlotCall)
    (h : mkPlotCall line_id e = some c) :
    c.label = "График:" ++ toString line_id := by
  unfold mkPlotCall at h
  split at h
  · split at h
    · injection h with h
      rw [← h]
    · cases h
  · cases h

theorem redrawCalls_labels (d : List (Nat × LineEntry))
    (calls : List PlotCall) (h : redrawCalls d = some calls) :
    calls.map PlotCall.label
      = d.map (fun p => "График:" ++ toString p.1) := by
  induction d generalizing calls with
  | nil =>
    rw [redrawCalls] at h
    injection h with h
    rw [← h]
    rfl
  | cons p rest ih =>
    rw [redrawCalls] at h
    cases hc : mkPlotCall p.1 p.2 with
    | none =>
      rw [hc] at h
      cases h
    | some c =>
      rw [hc] at h
      cases hr : redrawCalls rest with
      | none =>
        rw [hr] at h
        cases h
      | some cs =>
        rw [hr] at h
        injection h with h
        rw [← h, List.map_cons, List.map_cons, ih cs hr,
          mkPlotCall_label p.1 p.2 c hc]

/-- C4 counterexample: a line holding the full default settings record
whose label is then explicitly set to `"custom"` via
`update_line_settings` (the claim's own route) is still rendered with
the legend entry `"График:1"` — the redraw completes (no missing key,
so no `KeyError`) and the stored explicit label is ignored. -/
theorem claim_C4_counterexample :
    ((pmOne.update_line_settings 1
        [("label", SVal.str "custom")]).1.lines.map
        (fun p => dGet p.2.settings "label"))
      = [some (SVal.str "custom")] ∧
    ((pmOne.update_line_settings 1
        [("label", SVal.str "custom")]).1.redraw_plot).map
        (fun cs => cs.map PlotCall.label)
      = some ["График:1"] ∧
    ¬ (["График:1"] : List String) = ["custom"] := by decide

/-- C4 amended: during every redraw that completes (every line's
settings hold the five consulted style keys with a numeric marker
size — otherwise `redraw_plot` raises and aborts), the legend entry
attached to every line is `"График:<id>"` built from the line's id; an
explicitly stored settings label is never consulted. -/
theorem claim_C4_amended (pm : PlotManager) (calls : List PlotCall)
    (h : pm.redraw_plot = some calls) :
    calls.map PlotCall.label
      = pm.lines.map (fun p => "График:" ++ toString p.1) :=
  redrawCalls_labels pm.lines calls h

/-- C4 witness: the amended theorem instantiated on the concrete
one-line manager, whose redraw completes with the single legend entry
`"График:1"`. -/
theorem claim_C4_witness :
    ([{ x := [], y := [], linewidth := SVal.num 2,
        color := SVal.str "blue", linestyle := SVal.str ":",
        marker := none, markersize := SVal.num 0,
        markerfacecolor := SVal.str "red",
        label := "График:1" }] : List PlotCall).map PlotCall.label
      = pmOne.lines.map (fun p => "График:" ++ toString p.1) :=
  claim_C4_amended pmOne
    [{ x := [], y := [], linewidth := SVal.num 2,
       color := SVal.str "blue", linestyle := SVal.str ":",
       marker := none, markersize := SVal.num 0,
       markerfacecolor := SVal.str "red",
       label := "График:1" }] (by decide)

/-- C3 counterexample: starting from the fresh manager (configured
background `"maps\\ortophotoplan_earth_80.jpg"`), a `redraw_map` call
whose image load fails does NOT leave the configured background
reference unchanged — it has already been overwritten with the failing
path before the load is attempted. -/
theorem claim_C3_counterexample :
    ¬ ((PlotManager.init.redraw_map (some "missing.png")
          (fun _ => false)).1.background_image
        = PlotManager.init.background_image) := by decide

/-- C3 amended: when the image load fails, `redraw_map` reports the
error (returns `false`), draws nothing new (the previously displayed
background and the registry are untouched), but the configured
background path HAS been updated to the failing path — the failed call
is not a complete no-op. -/
theorem claim_C3_amended (pm : PlotManager) (p : String)
    (lo : String → Bool) (h : lo p = false) :
    (pm.redraw_map (some p) lo).1.displayed_background
      = pm.displayed_background ∧
    (pm.redraw_map (some p) lo).2 = false ∧
    (pm.redraw_map (some p) lo).1.background_image = p ∧
    (pm.redraw_map (some p) lo).1.lines = pm.lines := by
  simp [PlotManager.redraw_map, h]

/-- C3 witness: the amended theorem instantiated on the fresh manager
and an always-failing loader. -/
theorem claim_C3_witness :
    (PlotManager.init.redraw_map (some "missing.png")
        (fun _ => false)).1.displayed_background
      = PlotManager.init.displayed_background ∧
    (PlotManager.init.redraw_map (some "missing.png")
        (fun _ => false)).2 = false := by
  have h := claim_C3_amended PlotManager.init "missing.png"
    (fun _ => false) rfl
  exact ⟨h.1, h.2.1⟩

/-- C2: evaluating the reader at the spec's own test input.  The code
returns `[[1.0], [3.0, 4.0, "extra"]]` — the trailing `2.0` of the
first line is dropped, because a pending cell is only flushed when a
space or tab follows it and the terminating newline takes the silent
`continue` branch; the claimed `[[1.0, 2.0], [3.0, 4.0, "extra"]]` is
not what the code produces. -/
theorem claim_C2_reader_drops_trailing_cell :
    readTxtTable "1.0 2.0\n# comment\n\n3.0 4.0 extra\n"
      = some [[Cell.num 1], [Cell.num 3, Cell.num 4, Cell.str "extra"]] ∧
    ¬ ([[Cell.num 1], [Cell.num 3, Cell.num 4, Cell.str "extra"]]
        = [[Cell.num 1, Cell.num 2],
           [Cell.num 3, Cell.num 4, Cell.str "extra"]]) := by decide

/-- C8 counterexample: a blank line made of a tab is NOT skipped — the
skip test left-strips spaces only — and it contributes an empty row, so
`readTxtTable` on `"\t\n"` returns `[[]]`, not `[]`. -/
theorem claim_C8_counterexample :
    readTxtTable "\t\n" = some [[]] ∧
    ¬ ((some [[]] : Option (List (List Cell))) = some []) := by decide

theorem readRows_length (ls : List (List Char)) (rows : List (List Cell))
    (h : readRows ls = some rows) :
    rows.length = (ls.filter (fun l => !(skipLine l))).length := by
  induction ls generalizing rows with
  | nil =>
    rw [readRows] at h
    injection h with h
    rw [← h]
    rfl
  | cons line rest ih =>
    rw [readRows] at h
    by_cases hs : skipLine line
    · rw [if_pos hs] at h
      rw [List.filter_cons, if_neg (by simp [hs])]
      exact ih rows h
    · rw [if_neg hs] at h
      cases hscan : scanLine line [] [] with
      | none =>
        rw [hscan] at h
        cases h
      | some cells =>
        rw [hscan] at h
        cases hrest : readRows rest with
        | none =>
          rw [hrest] at h
          cases h
        | some rs =>
          rw [hrest] at h
          injection h with h
          rw [← h, List.filter_cons,
            if_pos (by simp [Bool.not_eq_true] at hs ⊢; exact hs),
            List.length_cons, List.length_cons, ih rs hrest]

/-- C8 amended: the reader skips exactly those lines whose first
character is `#` or whose content after stripping leading SPACES is the
bare newline; every other line — a tab-only blank line included —
contributes exactly one row, so on success the number of rows equals
the number of unskipped lines. -/
theorem claim_C8_amended (s : String) (rows : List (List Cell))
    (h : readTxtTable s = some rows) :
    rows.length
      = ((readlines s).filter (fun l => !(skipLine l))).length :=
  readRows_length (readlines s) rows h

/-- C8 witness: the amended theorem instantiated on an input holding a
data line, a comment line and a space-blank line. -/
theorem claim_C8_witness :
    ([[Cell.num 1]] : List (List Cell)).length
      = ((readlines "1 \n# c\n \n").filter
          (fun l => !(skipLine l))).length :=
  claim_C8_amended "1 \n# c\n \n" [[Cell.num 1]] (by decide)

end OnMapPlotter
